import Mathlib

/-!
# Verification of the raycasting-occlusion core

A shallow embedding of the occlusion-culling core of the `occ-raycasting`
crate: the software rasterizer (depth/id buffers, pixel writes, triangle
scan-conversion), the visibility aggregator, the frame binary format, the
AABB/ray slab test, the naive raycaster driver and the test statistics.

Modelling conventions:
* `f32` values are modelled as exact rationals (`ℚ`) extended with the IEEE
  special values NaN, `+∞`, `-∞` (the inductive type `F`).  Arithmetic on
  finite values is exact rational arithmetic; the f32 rounding of individual
  operations is not modelled.  All concrete inputs used in theorems below are
  chosen so that the corresponding f32 computations are exact.
* The single rational `0` stands for the f32 value `+0.0`; the sign of a
  floating-point zero is not modelled (`0.0 == -0.0` holds in Rust, so all
  modelled branch conditions agree for either sign; the only place the sign
  of zero could matter, a division by a signed zero in `aabb_ray`, yields
  results whose min/max combinations agree for both signs).
* Machine counters (`u32`/`usize` histogram counts, triangle counts) are
  modelled as `ℕ`; their wrap-around beyond `2^32`/`2^64` is not modelled.
* Fallible operations (slice indexing, `assert!`, `Option::unwrap` on a
  partial comparison, `read_exact`) are modelled in the `Option` monad where
  `none` means a panic or error.  `debug_assert!` is compiled out in release
  builds and is modelled as a no-op.
-/

namespace Occ

/-- Model of an `f32` value: a finite rational, `+∞`, `-∞` or NaN. -/
inductive F where
  | fin : ℚ → F
  | inf : F
  | ninf : F
  | nan : F
deriving DecidableEq

/-- Source `f32::is_nan`. -/
def F.isNan : F → Bool
  | .nan => true
  | _ => false

/-- Source `f32::is_infinite`. -/
def F.isInfinite : F → Bool
  | .inf => true
  | .ninf => true
  | _ => false

/-- Total comparison of two rationals as an `Ordering`. -/
def qcmp (a b : ℚ) : Ordering :=
  if a < b then .lt else if b < a then .gt else .eq

/-- Source `PartialOrd::partial_cmp` on `f32`: `none` iff either side is NaN. -/
def F.cmp? : F → F → Option Ordering
  | .nan, _ => none
  | _, .nan => none
  | .ninf, .ninf => some .eq
  | .ninf, _ => some .lt
  | _, .ninf => some .gt
  | .inf, .inf => some .eq
  | _, .inf => some .lt
  | .inf, _ => some .gt
  | .fin a, .fin b => some (qcmp a b)

/-- The `f32` strict comparison `<` (false on NaN operands). -/
def F.flt (a b : F) : Bool := a.cmp? b = some .lt

/-- The `f32` comparison `<=` (false on NaN operands). -/
def F.fle (a b : F) : Bool := a.cmp? b = some .lt ∨ a.cmp? b = some .eq

/-- Rust `f32::min`: if one argument is NaN the other is returned. -/
def F.rmin : F → F → F
  | .nan, b => b
  | a, .nan => a
  | a, b => if a.flt b then a else b

/-- Rust `f32::max`: if one argument is NaN the other is returned. -/
def F.rmax : F → F → F
  | .nan, b => b
  | a, .nan => a
  | a, b => if a.flt b then b else a

/-- Finite part of an `F` value (0 for the special values). -/
def F.toQ : F → ℚ
  | .fin q => q
  | _ => 0

/-- Division of two finite `f32` values, with the IEEE behaviour on a zero
divisor (the divisor zero is taken with positive sign, see the header). -/
def fdiv (a b : ℚ) : F :=
  if b ≠ 0 then .fin (a / b)
  else if a = 0 then .nan
  else if 0 < a then .inf
  else .ninf

/-- The value of the constant `f32::MAX`, namely `(2 - 2⁻²³)·2¹²⁷`. -/
def f32MAXQ : ℚ := 2 ^ 128 - 2 ^ 104

/-- Rust `as` cast from a (finite, already rounded) float to an unsigned
integer type with maximal value `cap`: truncation toward zero, saturating
at `0` and at `cap`. -/
def rustCastToUInt (q : ℚ) (cap : ℕ) : ℕ := min cap (Int.toNat ⌊q⌋)

/-- The two depth-buffer precision instantiations (`u16`, `u32`) of the
source trait `DepthBufferPrecisionType`, reduced to their data: `dmax` is
`D::MAX` and `fmax` is the value of the f32 constant `D::MAX as f32`
(which rounds to `2³²` for `u32`). -/
structure DepthPrec where
  fmax : ℚ
  dmax : ℕ
deriving DecidableEq

/-- The `u16` instantiation: `F_MAX = 65535.0` exactly. -/
def u16P : DepthPrec := ⟨65535, 65535⟩

/-- The `u32` instantiation: `u32::MAX as f32` rounds to `2³² = 4294967296`. -/
def u32P : DepthPrec := ⟨4294967296, 4294967295⟩

/-- Source `DepthBufferPrecisionType::from_f32`: `(depth * F_MAX) as D`.  The `as`
cast saturates, which also fixes the values on the special inputs
(`+∞ ↦ D::MAX`, `-∞ ↦ 0`, NaN `↦ 0`); in `draw_pixel` the argument is
always a finite value in `[0,1]`. -/
def DepthPrec.from_f32 (p : DepthPrec) (depth : F) : ℕ :=
  match depth with
  | .fin q => rustCastToUInt (q * p.fmax) p.dmax
  | .inf => p.dmax
  | .ninf => 0
  | .nan => 0

/-- Source `DepthBufferPrecisionType::to_f32`: `self as f32 / F_MAX`, in the exact
rational model (the f32 rounding of `self as f32` for values `≥ 2²⁴` is not
modelled). -/
def DepthPrec.to_f32 (p : DepthPrec) (v : ℕ) : ℚ := (v : ℚ) / p.fmax

/-- The spec's stated quantization map: `round(depth · D::MAX)` with `round`
being f32 `round` (half away from zero), stated over the exact reals. -/
def specQuantize (dmax : ℕ) (d : ℚ) : ℤ :=
  if 0 ≤ d * dmax then ⌊d * dmax + 1 / 2⌋ else -⌊-(d * dmax) + 1 / 2⌋

/-- f32 `round`: round to the nearest integer, half away from zero. -/
def roundQ (q : ℚ) : ℚ :=
  if 0 ≤ q then (⌊q + 1 / 2⌋ : ℤ) else ((-⌊-q + 1 / 2⌋ : ℤ) : ℚ)

/-- Rust `as usize` on a finite float: truncation toward zero saturating at
`0` (saturation at `usize::MAX` is not modelled; all modelled casts are far
below it). -/
def asUsize (q : ℚ) : ℕ := (⌊q⌋).toNat

/-- The source's generic `clamp` from `math/mod.rs`. -/
def clampQ (x minValue maxValue : ℚ) : ℚ :=
  if x < minValue then minValue else if maxValue < x then maxValue else x

/-- A screen-space vertex `(x, y, z)` as handed to `Rasterizer::rasterize`
(window coordinates with normalized depth). -/
structure V3 where
  x : ℚ
  y : ℚ
  z : ℚ
deriving DecidableEq

/-- State of `Rasterizer<D>`: dimensions plus the depth and id buffers. -/
structure Rasterizer where
  width : ℕ
  height : ℕ
  depth_buffer : List ℕ
  id_buffer : List (Option ℕ)
deriving DecidableEq

/-- Source `Rasterizer::new`: depth buffer filled with `D::MAX`, ids empty. -/
def Rasterizer.new (p : DepthPrec) (width height : ℕ) : Rasterizer :=
  ⟨width, height, List.replicate (width * height) p.dmax,
    List.replicate (width * height) none⟩

/-- Source `Rasterizer::clear`: `Vec::clear` empties the depth buffer (length 0),
while `fill(None)` resets the id buffer keeping its length. -/
def Rasterizer.clear (r : Rasterizer) : Rasterizer :=
  { r with depth_buffer := [],
           id_buffer := List.replicate r.id_buffer.length none }

/-- Source `Rasterizer::draw_pixel`.  Returns `none` on an (unreachable in intact
states) out-of-bounds buffer index, i.e. a Rust panic. -/
def drawPixel (p : DepthPrec) (r : Rasterizer) (id x y : ℕ) (depth : F) :
    Option Rasterizer :=
  let index := y * r.width + x
  if !(F.fle (.fin 0) depth && F.fle depth (.fin 1)) || depth.isInfinite
      || depth.isNan then
    some r
  else
    let d := p.from_f32 depth
    match r.depth_buffer.get? index with
    | none => none
    | some cur =>
      if d < cur then
        if index < r.id_buffer.length then
          some { r with depth_buffer := r.depth_buffer.set index d,
                        id_buffer := r.id_buffer.set index (some id) }
        else none
      else some r

/-- Source `Rasterizer::draw_scanline`: one horizontal line at row `y` from `x0`
to `x1` with endpoint depths `depth0`, `depth1`. -/
def drawScanline (p : DepthPrec) (r : Rasterizer) (id y : ℕ)
    (x0 x1 depth0 depth1 : ℚ) : Option Rasterizer :=
  let x0r := roundQ x0
  let x1r := roundQ x1
  let max_x : ℚ := (r.width : ℚ) - 1
  if x1r < 0 ∨ max_x < x0r then some r
  else
    let x0m := asUsize (max (roundQ x0r) 0)
    let x1m := asUsize (min (roundQ x1r) max_x)
    let dd : ℚ := if x0r < x1r then (depth1 - depth0) / (x1r - x0r) else 0
    (List.range' x0m (x1m + 1 - x0m)).foldlM
      (fun rr x => drawPixel p rr id x y (.fin (depth0 + ((x : ℚ) - x0r) * dd)))
      r

/-- Source `Rasterizer::fill_bottom_flat_triangle` (`p1.y.round() == p2.y.round()`,
`p0.y ≤ p1.y`). -/
def fillBottomFlatTriangle (p : DepthPrec) (r : Rasterizer) (id : ℕ)
    (p0 p1 p2 : V3) : Option Rasterizer :=
  let max_y : ℚ := (r.height : ℚ) - 1
  let y1 := p2.y
  if p0.y = p1.y then some r
  else
    let y0 := p0.y
    if y1 < 0 ∨ max_y < y0 then some r
    else
      let y0m := asUsize (max (roundQ y0) 0)
      let y1m := asUsize (min (roundQ y1) max_y)
      let lr : ℚ × ℚ × ℚ × ℚ :=
        if p1.x < p2.x then (p1.x, p2.x, p1.z, p2.z) else (p2.x, p1.x, p2.z, p1.z)
      (List.range' y0m (y1m + 1 - y0m)).foldlM
        (fun rr (y : ℕ) =>
          let yf := clampQ (((y : ℚ) - y0) / (y1 - y0)) 0 1
          let x0 := p0.x + yf * (lr.1 - p0.x)
          let x1 := p0.x + yf * (lr.2.1 - p0.x)
          let depth0 := p0.z + yf * (lr.2.2.1 - p0.z)
          let depth1 := p0.z + yf * (lr.2.2.2 - p0.z)
          drawScanline p rr id y x0 x1 depth0 depth1)
        r

/-- Source `Rasterizer::fill_top_flat_triangle` (`p0.y.round() == p1.y.round()`,
`p1.y ≤ p2.y`). -/
def fillTopFlatTriangle (p : DepthPrec) (r : Rasterizer) (id : ℕ)
    (p0 p1 p2 : V3) : Option Rasterizer :=
  let max_y : ℚ := (r.height : ℚ) - 1
  let y1 := p2.y
  if p2.y = p0.y then some r
  else
    let y0 := p0.y
    if y1 < 0 ∨ max_y < y0 then some r
    else
      let y0m := asUsize (max (roundQ y0) 0)
      let y1m := asUsize (min (roundQ y1) max_y)
      let lr : ℚ × ℚ × ℚ × ℚ :=
        if p0.x < p1.x then (p0.x, p1.x, p0.z, p1.z) else (p1.x, p0.x, p1.z, p0.z)
      (List.range' y0m (y1m + 1 - y0m)).foldlM
        (fun rr (y : ℕ) =>
          let yf := clampQ ((y1 - (y : ℚ)) / (y1 - y0)) 0 1
          let x0 := p2.x + yf * (lr.1 - p2.x)
          let x1 := p2.x + yf * (lr.2.1 - p2.x)
          let depth0 := p2.z + yf * (lr.2.2.1 - p2.z)
          let depth1 := p2.z + yf * (lr.2.2.2 - p2.z)
          drawScanline p rr id y x0 x1 depth0 depth1)
        r

/-- Source `Rasterizer::fill_triangle`: vertices already sorted ascending by `y`.
The `assert!` on the split parameter `lambda` is modelled as a possible
panic (`none`). -/
def fillTriangle (p : DepthPrec) (r : Rasterizer) (id : ℕ)
    (p0 p1 p2 : V3) : Option Rasterizer :=
  let y0 := p0.y
  let y1 := p1.y
  let y2 := p2.y
  if roundQ y0 = roundQ y2 then
    let y := roundQ y0
    if 0 ≤ y ∧ y < (r.height : ℚ) then
      let yn := asUsize y
      let q : ℚ × ℚ × ℚ × ℚ :=
        if p0.x ≤ p2.x then (p0.x, p2.x, p0.z, p2.z) else (p2.x, p0.x, p2.z, p0.z)
      drawScanline p r id yn q.1 q.2.1 q.2.2.1 q.2.2.2
    else some r
  else if roundQ y0 = roundQ y1 then
    fillTopFlatTriangle p r id p0 p1 p2
  else if roundQ y1 = roundQ y2 then
    fillBottomFlatTriangle p r id p0 p1 p2
  else
    let lam := (y1 - y0) / (y2 - y0)
    if 0 ≤ lam ∧ lam ≤ 1 then
      let x3 := p0.x + lam * (p2.x - p0.x)
      let z3 := p0.z + lam * (p2.z - p0.z)
      let p3 : V3 := ⟨x3, y1, z3⟩
      match fillBottomFlatTriangle p r id p0 p1 p3 with
      | none => none
      | some r1 => fillTopFlatTriangle p r1 id p1 p3 p2
    else none

/-- Source `Rasterizer::rasterize`: sort the three vertices ascending by `y` and
fill. -/
def rasterize (p : DepthPrec) (r : Rasterizer) (id : ℕ)
    (p0 p1 p2 : V3) : Option Rasterizer :=
  if p0.y ≤ p1.y ∧ p0.y ≤ p2.y then
    if p1.y ≤ p2.y then fillTriangle p r id p0 p1 p2
    else fillTriangle p r id p0 p2 p1
  else if p1.y ≤ p0.y ∧ p1.y ≤ p2.y then
    if p0.y ≤ p2.y then fillTriangle p r id p1 p0 p2
    else fillTriangle p r id p1 p2 p0
  else
    if p0.y ≤ p1.y then fillTriangle p r id p2 p0 p1
    else fillTriangle p r id p2 p1 p0

/-! ## Visibility aggregation (`utils.rs::compute_visibility_from_id_buffer`) -/

/-- A visibility list: `(object_id, coverage)` pairs, coverage being an
`f32` value. -/
abbrev Visibility := List (ℕ × F)

/-- One step of the histogram loop: `histogram[id] += 1`, panicking
(`none`) when `id` is out of bounds. -/
def histStep (h : List ℕ) (s : Option ℕ) : Option (List ℕ) :=
  match s with
  | none => some h
  | some id => if id < h.length then some (h.set id (h.getD id 0 + 1)) else none

/-- The comparator passed to `sort_by`: `b.1.partial_cmp(&a.1).unwrap()`
before the unwrap, i.e. comparison of the coverages in descending order. -/
def visCmp (a b : ℕ × F) : Option Ordering := F.cmp? b.2 a.2

/-- Insertion into a sorted prefix under a partial comparator; `none` means
the `unwrap` in the comparator panicked. -/
def insertM (cmp : α → α → Option Ordering) (a : α) : List α → Option (List α)
  | [] => some [a]
  | b :: bs =>
    match cmp a b with
    | none => none
    | some o =>
      if o = .gt then (insertM cmp a bs).map (b :: ·) else some (a :: b :: bs)

/-- A stable comparison sort under a partial comparator, in the `Option`
monad: on a comparator that is total on the list's elements it computes the
unique stable sort; with `≥ 2` elements whose every comparison is `none`
it panics, and lists of length `≤ 1` never invoke the comparator — the
properties of Rust's `sort_by` the theorems below rely on. -/
def sortM (cmp : α → α → Option Ordering) : List α → Option (List α)
  | [] => some []
  | a :: as =>
    match sortM cmp as with
    | none => none
    | some r => insertM cmp a r

/-- Source `compute_visibility_from_id_buffer`: histogram, emit
`(i, count_i as f32 / N as f32)`, sort by coverage descending with an
unwrapping comparator.  `none` models a panic (id out of histogram range,
or comparator unwrap on NaN). -/
def computeVisibilityFromIdBuffer (id_buffer : List (Option ℕ))
    (num_objects : ℕ) : Option Visibility :=
  match id_buffer.foldlM histStep (List.replicate num_objects 0) with
  | none => none
  | some histogram =>
    let vis : Visibility :=
      histogram.enum.map
        (fun ic => (ic.1, fdiv (ic.2 : ℚ) (id_buffer.length : ℚ)))
    sortM visCmp vis

/-! ## Frame and its binary format (`frame.rs`) -/

/-- A `Frame`: id buffer of optional object ids and an optional depth
buffer.  The `f32` depths are carried by their 32-bit patterns (an `ℕ`
below `2³²`), which is exactly what the little-endian (de)serialization
moves; bit equality implies Rust `==` on all non-NaN depths. -/
structure Frame where
  width : ℕ
  height : ℕ
  id_buffer : List (Option ℕ)
  depth_buffer : Option (List ℕ)
deriving DecidableEq

/-- Source `u32::to_le_bytes` (of `v mod 2³²`, matching the `as u32` truncation
for oversized `usize` inputs). -/
def u32leBytes (v : ℕ) : List ℕ :=
  [v % 256, v / 256 % 256, v / 256 ^ 2 % 256, v / 256 ^ 3 % 256]

/-- Read 4 bytes as a little-endian `u32`; `none` when the stream is
exhausted (`read_exact` error). -/
def readU32 : List ℕ → Option (ℕ × List ℕ)
  | b0 :: b1 :: b2 :: b3 :: rest =>
    some (b0 + 256 * b1 + 256 ^ 2 * b2 + 256 ^ 3 * b3, rest)
  | _ => none

/-- Source `Frame::write_binary`: width, height, has-depth flag; ids with
`u32::MAX` for `None`; then the raw depth words. -/
def Frame.write_binary (f : Frame) : List ℕ :=
  u32leBytes f.width ++ u32leBytes f.height ++
    u32leBytes (match f.depth_buffer with | some _ => 1 | none => 0) ++
    (f.id_buffer.map
      (fun id => match id with
        | some v => u32leBytes v
        | none => u32leBytes (2 ^ 32 - 1))).flatten ++
    (match f.depth_buffer with
      | some ds => (ds.map u32leBytes).flatten
      | none => [])

/-- Read `count` ids, decoding `u32::MAX` as `None`. -/
def readIds : ℕ → List ℕ → Option (List (Option ℕ) × List ℕ)
  | 0, bytes => some ([], bytes)
  | n + 1, bytes =>
    match readU32 bytes with
    | none => none
    | some (v, rest) =>
      match readIds n rest with
      | none => none
      | some (ids, rest') =>
        some ((if v = 2 ^ 32 - 1 then none else some v) :: ids, rest')

/-- Read `count` depth words. -/
def readDepths : ℕ → List ℕ → Option (List ℕ × List ℕ)
  | 0, bytes => some ([], bytes)
  | n + 1, bytes =>
    match readU32 bytes with
    | none => none
    | some (v, rest) =>
      match readDepths n rest with
      | none => none
      | some (ds, rest') => some (v :: ds, rest')

/-- Source `Frame::read_binary`. -/
def Frame.read_binary (bytes : List ℕ) : Option Frame :=
  match readU32 bytes with
  | none => none
  | some (w, rest) =>
    match readU32 rest with
    | none => none
    | some (h, rest) =>
      match readU32 rest with
      | none => none
      | some (has_depth, rest) =>
        match readIds (w * h) rest with
        | none => none
        | some (ids, rest) =>
          if has_depth = 1 then
            match readDepths (w * h) rest with
            | none => none
            | some (ds, _) => some ⟨w, h, ids, some ds⟩
          else some ⟨w, h, ids, none⟩

/-! ## TestStats -/

/-- Modelled from the spec: the spec's `TestStats` carries `num_triangles`
and `num_volume_tests`, and `naive_raycaster.rs` increments both fields,
but the `TestStats` declaration present under `src/lib.rs` (from a
different revision of the crate) lacks the `num_volume_tests` field and
its pointwise `Add`; the two-field accumulator is therefore modelled from
the spec (§ Data model, "TestStats"). -/
structure TestStats where
  num_triangles : ℕ
  num_volume_tests : ℕ
deriving DecidableEq

/-- Pointwise addition of the two counters. -/
def TestStats.add (a b : TestStats) : TestStats :=
  ⟨a.num_triangles + b.num_triangles,
    a.num_volume_tests + b.num_volume_tests⟩

/-- Source `TestStats::default()`: the all-zero statistics. -/
def TestStats.zero : TestStats := ⟨0, 0⟩

/-! ## Geometry kernel: vectors, AABB, rays and the slab test -/

/-- Component access `v[axis]` on a 3-vector. -/
def V3.nth (v : V3) : Fin 3 → ℚ
  | 0 => v.x
  | 1 => v.y
  | 2 => v.z

/-- Vector difference. -/
def V3.sub (a b : V3) : V3 := ⟨a.x - b.x, a.y - b.y, a.z - b.z⟩

/-- Dot product. -/
def V3.dot (a b : V3) : ℚ := a.x * b.x + a.y * b.y + a.z * b.z

/-- Cross product. -/
def V3.cross (a b : V3) : V3 :=
  ⟨a.y * b.z - a.z * b.y, a.z * b.x - a.x * b.z, a.x * b.y - a.y * b.x⟩

/-- Scalar multiple. -/
def V3.smul (c : ℚ) (a : V3) : V3 := ⟨c * a.x, c * a.y, c * a.z⟩

/-- Vector sum. -/
def V3.addv (a b : V3) : V3 := ⟨a.x + b.x, a.y + b.y, a.z + b.z⟩

/-- Exact rational square root: the positive root when it exists in `ℚ`,
`0` otherwise.  This stands in for the (correctly rounded, hence inexact)
f32 square root inside `normalize`; no theorem below depends on its value —
every modelled execution path that a theorem inspects either avoids
`normalize` or uses vectors whose length is exact. -/
def qSqrt (q : ℚ) : ℚ :=
  let c : ℚ := (Nat.sqrt q.num.toNat : ℚ) / (Nat.sqrt q.den : ℚ)
  if 0 ≤ q ∧ c * c = q then c else 0

/-- Source `nalgebra_glm::normalize` in the rational model. -/
def V3.normalize (v : V3) : V3 :=
  let l := qSqrt (v.dot v)
  if l = 0 then v else V3.smul (1 / l) v

/-- An axis-aligned bounding box, as in `math/aabb.rs`. -/
structure AABB where
  min : V3
  max : V3
deriving DecidableEq

/-- Source `AABB::contains_point`. -/
def AABB.contains_point (b : AABB) (p : V3) : Bool :=
  decide (b.min.x ≤ p.x ∧ p.x ≤ b.max.x ∧ b.min.y ≤ p.y ∧ p.y ≤ b.max.y ∧
    b.min.z ≤ p.z ∧ p.z ≤ b.max.z)

/-- A ray: origin and (by construction normalized) direction. -/
structure Ray where
  pos : V3
  dir : V3
deriving DecidableEq

/-- Source `Ray::from_pos`: ray through `x0` toward `x1` with normalized
direction. -/
def Ray.from_pos (x0 x1 : V3) : Ray := ⟨x0, (x1.sub x0).normalize⟩

/-- The body of the slab-test loop of `aabb_ray`, one axis at a time.
`t_min`/`t_max` are genuine `f32` values (they can become infinite through
the divisions by a zero direction component). -/
def aabbRayAux (b : AABB) (r : Ray) : List (Fin 3) → F → F → Option F
  | [], t_min, _ => some t_min
  | axis :: rest, t_min, t_max =>
    if r.dir.nth axis = 0 ∧
        (r.pos.nth axis < b.min.nth axis ∨ b.max.nth axis < r.pos.nth axis) then
      none
    else
      let t0 := fdiv (b.min.nth axis - r.pos.nth axis) (r.dir.nth axis)
      let t1 := fdiv (b.max.nth axis - r.pos.nth axis) (r.dir.nth axis)
      let t_min' := F.rmax t_min (F.rmin t0 t1)
      let t_max' := F.rmin t_max (F.rmax t0 t1)
      if t_max'.flt t_min' then none else aabbRayAux b r rest t_min' t_max'

/-- Source `intersection.rs::aabb_ray`: the slab test, with
`t_max = max_f.unwrap_or(f32::MAX)` as in the source. -/
def aabb_ray (b : AABB) (r : Ray) (max_f : Option ℚ) : Option F :=
  aabbRayAux b r [0, 1, 2] (.fin 0) (.fin (max_f.getD f32MAXQ))

/-- A plane `n·p + d = 0`, as in `math/plane.rs`. -/
structure Plane where
  d : ℚ
  n : V3
deriving DecidableEq

/-- Source `Plane::from_basis`: normal is the normalized cross product. -/
def Plane.from_basis (pos b0 b1 : V3) : Plane :=
  let n := (b0.cross b1).normalize
  ⟨-(n.dot pos), n⟩

/-- Source `Plane::from_triangle`. -/
def Plane.from_triangle (p0 p1 p2 : V3) : Plane :=
  Plane.from_basis p0 (p1.sub p0) (p2.sub p0)

/-- Source `intersection.rs::plane_ray`. -/
def plane_ray (pl : Plane) (r : Ray) : Option ℚ :=
  let a := pl.n.dot r.dir
  if a = 0 then none
  else
    let lam := -(pl.d + pl.n.dot r.pos) / a
    if lam < 0 then none else some lam

/-- Source `intersection.rs::triangle_ray`. -/
def triangle_ray (p0 p1 p2 : V3) (r : Ray) (max_f : Option ℚ) : Option ℚ :=
  let pl := Plane.from_triangle p0 p1 p2
  match plane_ray pl r with
  | none => none
  | some lam =>
    if (match max_f with | some m => decide (m < lam) | none => false) then none
    else
      let pos0 := r.pos.addv (V3.smul lam r.dir)
      let edge0 := p1.sub p0
      let edge1 := p2.sub p1
      let edge2 := p0.sub p2
      let c0 := pos0.sub p0
      let c1 := pos0.sub p1
      let c2 := pos0.sub p2
      if 0 < pl.n.dot (edge0.cross c0) ∧ 0 < pl.n.dot (edge1.cross c1) ∧
          0 < pl.n.dot (edge2.cross c2) then
        some lam
      else none

/-! ## 4×4 and 3×4 matrices -/

/-- A 4-vector. -/
structure V4 where
  x : ℚ
  y : ℚ
  z : ℚ
  w : ℚ
deriving DecidableEq

/-- A 4×4 matrix in row-major notation (`mAB` = row `A`, column `B`). -/
structure M4 where
  m00 : ℚ
  m01 : ℚ
  m02 : ℚ
  m03 : ℚ
  m10 : ℚ
  m11 : ℚ
  m12 : ℚ
  m13 : ℚ
  m20 : ℚ
  m21 : ℚ
  m22 : ℚ
  m23 : ℚ
  m30 : ℚ
  m31 : ℚ
  m32 : ℚ
  m33 : ℚ
deriving DecidableEq

/-- Matrix-vector product. -/
def M4.mulV4 (m : M4) (v : V4) : V4 :=
  ⟨m.m00 * v.x + m.m01 * v.y + m.m02 * v.z + m.m03 * v.w,
   m.m10 * v.x + m.m11 * v.y + m.m12 * v.z + m.m13 * v.w,
   m.m20 * v.x + m.m21 * v.y + m.m22 * v.z + m.m23 * v.w,
   m.m30 * v.x + m.m31 * v.y + m.m32 * v.z + m.m33 * v.w⟩

/-- Matrix product `a · b`. -/
def M4.mul (a b : M4) : M4 :=
  ⟨a.m00 * b.m00 + a.m01 * b.m10 + a.m02 * b.m20 + a.m03 * b.m30,
   a.m00 * b.m01 + a.m01 * b.m11 + a.m02 * b.m21 + a.m03 * b.m31,
   a.m00 * b.m02 + a.m01 * b.m12 + a.m02 * b.m22 + a.m03 * b.m32,
   a.m00 * b.m03 + a.m01 * b.m13 + a.m02 * b.m23 + a.m03 * b.m33,
   a.m10 * b.m00 + a.m11 * b.m10 + a.m12 * b.m20 + a.m13 * b.m30,
   a.m10 * b.m01 + a.m11 * b.m11 + a.m12 * b.m21 + a.m13 * b.m31,
   a.m10 * b.m02 + a.m11 * b.m12 + a.m12 * b.m22 + a.m13 * b.m32,
   a.m10 * b.m03 + a.m11 * b.m13 + a.m12 * b.m23 + a.m13 * b.m33,
   a.m20 * b.m00 + a.m21 * b.m10 + a.m22 * b.m20 + a.m23 * b.m30,
   a.m20 * b.m01 + a.m21 * b.m11 + a.m22 * b.m21 + a.m23 * b.m31,
   a.m20 * b.m02 + a.m21 * b.m12 + a.m22 * b.m22 + a.m23 * b.m32,
   a.m20 * b.m03 + a.m21 * b.m13 + a.m22 * b.m23 + a.m23 * b.m33,
   a.m30 * b.m00 + a.m31 * b.m10 + a.m32 * b.m20 + a.m33 * b.m30,
   a.m30 * b.m01 + a.m31 * b.m11 + a.m32 * b.m21 + a.m33 * b.m31,
   a.m30 * b.m02 + a.m31 * b.m12 + a.m32 * b.m22 + a.m33 * b.m32,
   a.m30 * b.m03 + a.m31 * b.m13 + a.m32 * b.m23 + a.m33 * b.m33⟩

/-- Determinant of the 3×3 matrix given entrywise. -/
def det3 (a b c d e f g h i : ℚ) : ℚ :=
  a * (e * i - f * h) - b * (d * i - f * g) + c * (d * h - e * g)

/-- Determinant of a 4×4 matrix, by cofactor expansion along the first
row. -/
def M4.det (m : M4) : ℚ :=
  m.m00 * det3 m.m11 m.m12 m.m13 m.m21 m.m22 m.m23 m.m31 m.m32 m.m33 -
  m.m01 * det3 m.m10 m.m12 m.m13 m.m20 m.m22 m.m23 m.m30 m.m32 m.m33 +
  m.m02 * det3 m.m10 m.m11 m.m13 m.m20 m.m21 m.m23 m.m30 m.m31 m.m33 -
  m.m03 * det3 m.m10 m.m11 m.m12 m.m20 m.m21 m.m22 m.m30 m.m31 m.m32

/-- Adjugate (transposed cofactor) matrix. -/
def M4.adjugate (m : M4) : M4 :=
  ⟨det3 m.m11 m.m12 m.m13 m.m21 m.m22 m.m23 m.m31 m.m32 m.m33,
   -det3 m.m01 m.m02 m.m03 m.m21 m.m22 m.m23 m.m31 m.m32 m.m33,
   det3 m.m01 m.m02 m.m03 m.m11 m.m12 m.m13 m.m31 m.m32 m.m33,
   -det3 m.m01 m.m02 m.m03 m.m11 m.m12 m.m13 m.m21 m.m22 m.m23,
   -det3 m.m10 m.m12 m.m13 m.m20 m.m22 m.m23 m.m30 m.m32 m.m33,
   det3 m.m00 m.m02 m.m03 m.m20 m.m22 m.m23 m.m30 m.m32 m.m33,
   -det3 m.m00 m.m02 m.m03 m.m10 m.m12 m.m13 m.m30 m.m32 m.m33,
   det3 m.m00 m.m02 m.m03 m.m10 m.m12 m.m13 m.m20 m.m22 m.m23,
   det3 m.m10 m.m11 m.m13 m.m20 m.m21 m.m23 m.m30 m.m31 m.m33,
   -det3 m.m00 m.m01 m.m03 m.m20 m.m21 m.m23 m.m30 m.m31 m.m33,
   det3 m.m00 m.m01 m.m03 m.m10 m.m11 m.m13 m.m30 m.m31 m.m33,
   -det3 m.m00 m.m01 m.m03 m.m10 m.m11 m.m13 m.m20 m.m21 m.m23,
   -det3 m.m10 m.m11 m.m12 m.m20 m.m21 m.m22 m.m30 m.m31 m.m32,
   det3 m.m00 m.m01 m.m02 m.m20 m.m21 m.m22 m.m30 m.m31 m.m32,
   -det3 m.m00 m.m01 m.m02 m.m10 m.m11 m.m12 m.m30 m.m31 m.m32,
   det3 m.m00 m.m01 m.m02 m.m10 m.m11 m.m12 m.m20 m.m21 m.m22⟩

/-- Scalar multiple of a matrix. -/
def M4.smulM (c : ℚ) (m : M4) : M4 :=
  ⟨c * m.m00, c * m.m01, c * m.m02, c * m.m03,
   c * m.m10, c * m.m11, c * m.m12, c * m.m13,
   c * m.m20, c * m.m21, c * m.m22, c * m.m23,
   c * m.m30, c * m.m31, c * m.m32, c * m.m33⟩

/-- Source `nalgebra`'s `try_inverse`: `none` for a singular matrix, otherwise the
inverse (via the adjugate in this exact-rational model). -/
def M4.tryInverse (m : M4) : Option M4 :=
  if m.det = 0 then none else some (M4.smulM (1 / m.det) m.adjugate)

/-- A 3×4 matrix (the object `Transform`). -/
structure M34 where
  m00 : ℚ
  m01 : ℚ
  m02 : ℚ
  m03 : ℚ
  m10 : ℚ
  m11 : ℚ
  m12 : ℚ
  m13 : ℚ
  m20 : ℚ
  m21 : ℚ
  m22 : ℚ
  m23 : ℚ
deriving DecidableEq

/-- Source `NaiveRaycaster::transform`: `m * (v, 1)` with a 3×4 matrix. -/
def M34.transform (m : M34) (v : V3) : V3 :=
  ⟨m.m00 * v.x + m.m01 * v.y + m.m02 * v.z + m.m03,
   m.m10 * v.x + m.m11 * v.y + m.m12 * v.z + m.m13,
   m.m20 * v.x + m.m21 * v.y + m.m22 * v.z + m.m23⟩

/-! ## Scene data model -/

/-- A mesh: vertices and triangles of vertex indices. -/
structure Mesh where
  vertices : List V3
  indices : List (ℕ × ℕ × ℕ)
deriving DecidableEq

/-- An object instance: mesh reference plus placement. -/
structure Object where
  mesh_index : ℕ
  transform : M34
deriving DecidableEq

/-- A scene: meshes and object instances. -/
structure Scene where
  meshes : List Mesh
  objects : List Object
deriving DecidableEq

/-! ## Naive raycaster (`raycaster/naive_raycaster.rs`) -/

/-- State of `NaiveRaycaster`: scene, per-object world AABBs, frame size
and the id buffer. -/
structure NaiveRaycaster where
  scene : Scene
  scene_volumes : List AABB
  frame_size : ℕ
  id_buffer : List (Option ℕ)
deriving DecidableEq

/-- Source `NaiveRaycaster::un_project` (window to world coordinates through the
inverted projection·view matrix). -/
def unProject (frame_size : ℕ) (inv_pmmat : M4) (win : V3) : V3 :=
  let fs : ℚ := (frame_size : ℚ)
  let v : V4 := ⟨win.x / fs * 2 - 1, win.y / fs * 2 - 1, 2 * win.z - 1, 1⟩
  let v := inv_pmmat.mulV4 v
  if v.w ≠ 0 then ⟨v.x / v.w, v.y / v.w, v.z / v.w⟩ else ⟨v.x, v.y, v.z⟩

/-- Modelled from the spec: the helper
`extract_camera_pos_from_view_matrix` is referenced by
`naive_raycaster.rs` but absent from the sources; §4.5 of the spec says a
camera-position convention is required and not shown.  The standard
convention for a rigid view matrix is used: `-Rᵀ·t` with `R` the upper-left
3×3 block and `t` the translation column.  No theorem below depends on the
returned value. -/
def extractCameraPosFromViewMatrix (v : M4) : V3 :=
  ⟨-(v.m00 * v.m03 + v.m10 * v.m13 + v.m20 * v.m23),
   -(v.m01 * v.m03 + v.m11 * v.m13 + v.m21 * v.m23),
   -(v.m02 * v.m03 + v.m12 * v.m13 + v.m22 * v.m23)⟩

/-- The triangle loop of `raycast_data` for one object at one pixel.
State: current nearest depth, id buffer, statistics. -/
def raycastTriangles (fs x y object_id : ℕ) (transform : M34) (ray : Ray)
    (vertices : List V3) :
    List (ℕ × ℕ × ℕ) → ℚ × List (Option ℕ) × TestStats →
      Option (ℚ × List (Option ℕ) × TestStats)
  | [], st => some st
  | t :: ts, (depth, buf, stats) =>
    let stats := { stats with num_triangles := stats.num_triangles + 1 }
    match vertices.get? t.1, vertices.get? t.2.1, vertices.get? t.2.2 with
    | some v0, some v1, some v2 =>
      let p0 := transform.transform v0
      let p1 := transform.transform v1
      let p2 := transform.transform v2
      match triangle_ray p0 p1 p2 ray (some depth) with
      | some d =>
        if d < depth then
          raycastTriangles fs x y object_id transform ray vertices ts
            (d, buf.set (y * fs + x) (some object_id), stats)
        else
          raycastTriangles fs x y object_id transform ray vertices ts
            (depth, buf, stats)
      | none =>
        raycastTriangles fs x y object_id transform ray vertices ts
          (depth, buf, stats)
    | _, _, _ => none

/-- The object loop of `raycast_data` at one pixel: AABB pre-test, then
the triangle loop.  A missing volume or mesh is a Rust indexing panic. -/
def raycastObjects (r : NaiveRaycaster) (x y : ℕ) (ray : Ray) :
    List (ℕ × Object) → ℚ × List (Option ℕ) × TestStats →
      Option (ℚ × List (Option ℕ) × TestStats)
  | [], st => some st
  | (object_id, obj) :: os, (depth, buf, stats) =>
    match r.scene_volumes.get? object_id with
    | none => none
    | some vol =>
      let stats :=
        { stats with num_volume_tests := stats.num_volume_tests + 1 }
      match aabb_ray vol ray (some depth) with
      | none => raycastObjects r x y ray os (depth, buf, stats)
      | some _ =>
        match r.scene.meshes.get? obj.mesh_index with
        | none => none
        | some mesh =>
          match raycastTriangles r.frame_size x y object_id obj.transform
              ray mesh.vertices mesh.indices (depth, buf, stats) with
          | none => none
          | some st => raycastObjects r x y ray os st

/-- Source `NaiveRaycaster::raycast_data`: early zero-stats return on a
non-invertible combined matrix, otherwise the per-pixel ray loop. -/
def raycastData (r : NaiveRaycaster) (view proj : M4) :
    Option (NaiveRaycaster × TestStats) :=
  let pmmat := proj.mul view
  let x0 := extractCameraPosFromViewMatrix view
  match pmmat.tryInverse with
  | none => some (r, TestStats.zero)
  | some inv =>
    let res := (List.range r.frame_size).foldlM
      (fun (st : List (Option ℕ) × TestStats) (y : ℕ) =>
        (List.range r.frame_size).foldlM
          (fun (st : List (Option ℕ) × TestStats) (x : ℕ) =>
            let x1 := unProject r.frame_size inv
              ⟨(x : ℚ) + 1 / 2, (y : ℚ) + 1 / 2, 1⟩
            let ray := Ray.from_pos x0 x1
            match raycastObjects r x y ray r.scene.objects.enum
                (f32MAXQ, st.1, st.2) with
            | none => none
            | some (_, buf, stats) => some (buf, stats))
          st)
      (r.id_buffer, TestStats.zero)
    match res with
    | none => none
    | some (buf, stats) => some ({ r with id_buffer := buf }, stats)

/-- Source `NaiveRaycaster::compute_visibility`: reset the id buffer, raycast,
optionally copy the id buffer into a caller frame (`copy_from_slice`
panics on a length mismatch), aggregate visibility. -/
def NaiveRaycaster.compute_visibility (r : NaiveRaycaster)
    (frame : Option Frame) (view proj : M4) :
    Option (NaiveRaycaster × Option Frame × Visibility × TestStats) :=
  let r1 := { r with id_buffer := List.replicate r.id_buffer.length none }
  match raycastData r1 view proj with
  | none => none
  | some (r2, stats) =>
    let fr : Option (Option Frame) :=
      match frame with
      | none => some none
      | some f =>
        if f.id_buffer.length = r2.id_buffer.length then
          some (some { f with id_buffer := r2.id_buffer })
        else none
    match fr with
    | none => none
    | some fr =>
      match computeVisibilityFromIdBuffer r2.id_buffer
          r.scene.objects.length with
      | none => none
      | some vis => some (r2, fr, vis, stats)

/-- The per-axis condition under which the slab-test loop keeps
`t_min = 0` for a ray whose origin is inside the box: the direction
component is nonzero, or the origin is strictly inside the slab, or the
slab is degenerate (`min = pos = max`). -/
def axisBenign (b : AABB) (r : Ray) (k : Fin 3) : Prop :=
  r.dir.nth k ≠ 0 ∨
    (b.min.nth k < r.pos.nth k ∧ r.pos.nth k < b.max.nth k) ∨
    (b.min.nth k = r.pos.nth k ∧ r.pos.nth k = b.max.nth k)

/-- The ordering relation realized by the visibility comparator on
NaN-free entries: descending by coverage. -/
def visLE (a b : ℕ × F) : Prop := F.toQ b.2 ≤ F.toQ a.2

instance : DecidableRel visLE :=
  fun a b => inferInstanceAs (Decidable (F.toQ b.2 ≤ F.toQ a.2))

instance : IsTotal (ℕ × F) visLE :=
  ⟨fun a b => le_total (F.toQ b.2) (F.toQ a.2)⟩

instance : IsTrans (ℕ × F) visLE :=
  ⟨fun _ _ _ hab hbc => le_trans hbc hab⟩

/-! ## Helper lemmas on the float model -/

theorem flt_fin_iff (a b : ℚ) : F.flt (F.fin a) (F.fin b) = true ↔ a < b := by
  simp only [F.flt, F.cmp?, qcmp, decide_eq_true_eq]
  split_ifs with h1 h2 <;> simp_all

theorem fle_fin_iff (a b : ℚ) : F.fle (F.fin a) (F.fin b) = true ↔ a ≤ b := by
  simp only [F.fle, F.cmp?, qcmp, Bool.decide_or, Bool.or_eq_true,
    decide_eq_true_eq]
  split_ifs with h1 h2 <;> simp_all <;> linarith

theorem rmin_fin_fin (a b : ℚ) :
    F.rmin (F.fin a) (F.fin b) = F.fin (min a b) := by
  simp only [F.rmin]
  split_ifs with h
  · rw [min_eq_left ((flt_fin_iff a b).mp h).le]
  · rw [min_eq_right (le_of_not_lt (fun hc => h ((flt_fin_iff a b).mpr hc)))]

theorem rmax_fin_fin (a b : ℚ) :
    F.rmax (F.fin a) (F.fin b) = F.fin (max a b) := by
  simp only [F.rmax]
  split_ifs with h
  · rw [max_eq_right ((flt_fin_iff a b).mp h).le]
  · rw [max_eq_left (le_of_not_lt (fun hc => h ((flt_fin_iff a b).mpr hc)))]

/-! ## Claim C1 -/

/-- C1: the claim says that after `clear()` the depth buffer still has
`W·H` cells all equal to `D::MAX`.  Evaluating the code at the failing
input (a 2×2 rasterizer): `Vec::clear` leaves the depth buffer with 0
cells instead of 4 cells of `D::MAX` (the id buffer is correctly reset to
4 empty cells, and construction does fill 4 cells with `D::MAX`). -/
theorem C1_clear_empties_depth_buffer :
    ((Rasterizer.new u32P 2 2).clear).depth_buffer.length = 0 ∧
    ((Rasterizer.new u32P 2 2).clear).id_buffer = List.replicate 4 none ∧
    (Rasterizer.new u32P 2 2).depth_buffer = List.replicate 4 4294967295 := by
  decide

/-! ## Claim C8 -/

/-- C8: `TestStats` is a monoid under pointwise addition of its two
counters: addition is associative, the all-zero value is a left and right
identity, and addition acts componentwise. -/
theorem C8_teststats_monoid : ∀ a b c : TestStats,
    (a.add b).add c = a.add (b.add c) ∧
    TestStats.zero.add a = a ∧ a.add TestStats.zero = a ∧
    (a.add b).num_triangles = a.num_triangles + b.num_triangles ∧
    (a.add b).num_volume_tests = a.num_volume_tests + b.num_volume_tests := by
  intro a b c
  cases a
  cases b
  cases c
  simp [TestStats.add, TestStats.zero, Nat.add_assoc]

/-! ## Claim C6 -/

/-- C6 counterexample: the claim says `from_f32` returns
`round(depth · D::MAX)`.  At `depth = 1/2` for the 16-bit type the code
computes `(0.5 * 65535.0) as u16 = 32767` (the f32 product `32767.5` is
exact; the `as` cast truncates), while `round(0.5 · 65535) = 32768`. -/
theorem C6_from_f32_round_counterexample :
    u16P.from_f32 (F.fin (1 / 2)) = 32767 ∧
    roundQ ((1 / 2 : ℚ) * 65535) = 32768 ∧
    (u16P.from_f32 (F.fin (1 / 2)) : ℚ) ≠ roundQ ((1 / 2 : ℚ) * 65535) := by
  have h1 : u16P.from_f32 (F.fin (1 / 2)) = 32767 := by
    norm_num [u16P, DepthPrec.from_f32, rustCastToUInt]
    decide
  have h2 : roundQ ((1 / 2 : ℚ) * 65535) = 32768 := by
    norm_num [roundQ]
  exact ⟨h1, h2, by rw [h1, h2]; norm_num⟩

/-- C6 amended: for `depth ∈ [0,1]`, `from_f32` truncates (rather than
rounds) `depth · F` toward zero, saturating at `D::MAX`, where `F` is the
f32 value of `D::MAX` (`65535` for `u16`, `2³²` for `u32` — `u32::MAX`
rounds up when cast to f32); `to_f32` returns `value / F`.  The
dequantized value satisfies `d − 1/F < to_f32(from_f32(d)) ≤ d` (16-bit
case). -/
theorem C6_quantization_amended : ∀ d : ℚ, 0 ≤ d → d ≤ 1 →
    u16P.from_f32 (F.fin d) = Int.toNat ⌊d * 65535⌋ ∧
    u32P.from_f32 (F.fin d) = min 4294967295 (Int.toNat ⌊d * 4294967296⌋) ∧
    (∀ v : ℕ, u16P.to_f32 v = (v : ℚ) / 65535 ∧
      u32P.to_f32 v = (v : ℚ) / 4294967296) ∧
    u16P.to_f32 (u16P.from_f32 (F.fin d)) ≤ d ∧
    d - u16P.to_f32 (u16P.from_f32 (F.fin d)) < 1 / 65535 := by
  intro d hd0 hd1
  have hfl0 : (0 : ℤ) ≤ ⌊d * 65535⌋ := by
    apply Int.floor_nonneg.mpr
    positivity
  have hfl1 : ⌊d * 65535⌋ ≤ 65535 := by
    have : d * 65535 ≤ 65535 := by nlinarith
    calc ⌊d * 65535⌋ ≤ ⌊(65535 : ℚ)⌋ := Int.floor_le_floor this
    _ = 65535 := by norm_num
  have h16 : u16P.from_f32 (F.fin d) = Int.toNat ⌊d * 65535⌋ := by
    simp only [DepthPrec.from_f32, u16P, rustCastToUInt]
    apply min_eq_right
    omega
  refine ⟨h16, rfl, fun v => ⟨rfl, rfl⟩, ?_, ?_⟩
  · rw [h16]
    simp only [DepthPrec.to_f32, u16P]
    rw [div_le_iff (by norm_num)]
    have : ((Int.toNat ⌊d * 65535⌋ : ℤ) : ℚ) ≤ d * 65535 := by
      rw [Int.toNat_of_nonneg hfl0]
      exact Int.floor_le _
    push_cast at this ⊢
    linarith
  · rw [h16]
    simp only [DepthPrec.to_f32, u16P]
    have hxq : ((Int.toNat ⌊d * 65535⌋ : ℕ) : ℚ) = ((⌊d * 65535⌋ : ℤ) : ℚ) := by
      exact_mod_cast congrArg (fun z : ℤ => (z : ℚ)) (Int.toNat_of_nonneg hfl0)
    calc d - ((Int.toNat ⌊d * 65535⌋ : ℕ) : ℚ) / 65535
        = (d * 65535 - ((⌊d * 65535⌋ : ℤ) : ℚ)) / 65535 := by rw [hxq]; ring
      _ < 1 / 65535 := by
          apply (div_lt_div_right (by norm_num : (0 : ℚ) < 65535)).mpr
          linarith [Int.lt_floor_add_one (d * 65535)]

/-- C6 amended, witness at `d = 1/3`. -/
theorem C6_quantization_amended_witness :
    (0 : ℚ) ≤ 1 / 3 ∧ (1 / 3 : ℚ) ≤ 1 ∧
    u16P.from_f32 (F.fin (1 / 3)) = Int.toNat ⌊(1 / 3 : ℚ) * 65535⌋ ∧
    u16P.to_f32 (u16P.from_f32 (F.fin (1 / 3))) ≤ (1 / 3 : ℚ) :=
  ⟨by norm_num, by norm_num,
    (C6_quantization_amended (1 / 3) (by norm_num) (by norm_num)).1,
    (C6_quantization_amended (1 / 3) (by norm_num) (by norm_num)).2.2.2.1⟩

/-! ## Pixel-write lemmas (claims C4, C9) -/

theorem drawPixel_invalid (p : DepthPrec) (r : Rasterizer) (id x y : ℕ)
    (depth : F)
    (h : (F.fle (F.fin 0) depth && F.fle depth (F.fin 1)) = false ∨
      depth.isInfinite = true ∨ depth.isNan = true) :
    drawPixel p r id x y depth = some r := by
  have hc : (!(F.fle (F.fin 0) depth && F.fle depth (F.fin 1))
      || depth.isInfinite || depth.isNan) = true := by
    rcases h with h | h | h <;> simp [h]
  simp only [drawPixel]
  rw [hc]
  simp

theorem drawPixel_validCond (q : ℚ) (h0 : 0 ≤ q) (h1 : q ≤ 1) :
    (!(F.fle (F.fin 0) (F.fin q) && F.fle (F.fin q) (F.fin 1))
      || (F.fin q).isInfinite || (F.fin q).isNan) = false := by
  simp [F.isInfinite, F.isNan, fle_fin_iff, h0, h1]

theorem drawPixel_valid (p : DepthPrec) (r : Rasterizer) (id x y : ℕ)
    (q : ℚ) (h0 : 0 ≤ q) (h1 : q ≤ 1) (cur : ℕ)
    (hcur : r.depth_buffer.get? (y * r.width + x) = some cur)
    (hid : y * r.width + x < r.id_buffer.length) :
    drawPixel p r id x y (F.fin q) =
      some (if p.from_f32 (F.fin q) < cur then
        { r with
            depth_buffer :=
              r.depth_buffer.set (y * r.width + x) (p.from_f32 (F.fin q)),
            id_buffer := r.id_buffer.set (y * r.width + x) (some id) }
      else r) := by
  simp only [drawPixel]
  rw [drawPixel_validCond q h0 h1]
  simp only [Bool.false_eq_true, if_false, hcur]
  split_ifs with hlt
  · simp [hid]
  · rfl

theorem drawPixel_empty_depth (p : DepthPrec) (r : Rasterizer) (id x y : ℕ)
    (q : ℚ) (h0 : 0 ≤ q) (h1 : q ≤ 1) (hdb : r.depth_buffer = []) :
    drawPixel p r id x y (F.fin q) = none := by
  simp only [drawPixel]
  rw [drawPixel_validCond q h0 h1]
  simp [hdb]

theorem drawPixel_depth_monotone (p : DepthPrec) (r : Rasterizer)
    (id x y : ℕ) (depth : F) (r' : Rasterizer) (v v' : ℕ)
    (h : drawPixel p r id x y depth = some r')
    (hv : r.depth_buffer.get? (y * r.width + x) = some v)
    (hv' : r'.depth_buffer.get? (y * r.width + x) = some v') :
    v' = v ∨ v' < v := by
  have hvlen : y * r.width + x < r.depth_buffer.length :=
    List.get?_eq_some.mp hv |>.1
  cases hcond : (!(F.fle (F.fin 0) depth && F.fle depth (F.fin 1))
      || depth.isInfinite || depth.isNan) with
  | true =>
    simp only [drawPixel] at h
    rw [hcond] at h
    simp only [if_true] at h
    cases h
    left
    rw [hv] at hv'
    exact ((Option.some.injEq _ _).mp hv').symm
  | false =>
    simp only [drawPixel] at h
    rw [hcond] at h
    simp only [Bool.false_eq_true, if_false, hv] at h
    split_ifs at h with hlt hlen
    · have hr : r' =
        { r with
            depth_buffer :=
              r.depth_buffer.set (y * r.width + x) (p.from_f32 depth),
            id_buffer := r.id_buffer.set (y * r.width + x) (some id) } :=
        (Option.some.injEq _ _).mp h.symm
      have hset :
          (r.depth_buffer.set (y * r.width + x) (p.from_f32 depth)).get?
            (y * r.width + x) = some (p.from_f32 depth) :=
        List.get?_set_eq_of_lt _ hvlen
      rw [hr] at hv'
      simp only [hset] at hv'
      right
      rw [← (Option.some.injEq _ _).mp hv']
      exact hlt
    · cases h
      left
      rw [hv] at hv'
      exact ((Option.some.injEq _ _).mp hv').symm

/-! ## Claim C4 -/

/-- C4: a pixel write with a depth outside `[0,1]` or non-finite leaves
both buffers unchanged; otherwise the quantized depth is stored and the id
written if and only if the quantized depth is strictly less than the
stored cell (an equal depth does not win); consequently a stored depth
cell never increases and every actual change strictly decreases it, so the
sequence of values ever stored at a fixed pixel is strictly decreasing. -/
theorem C4_draw_pixel_spec (p : DepthPrec) (r : Rasterizer) (id x y : ℕ) :
    (∀ depth : F,
      (F.fle (F.fin 0) depth && F.fle depth (F.fin 1)) = false ∨
        depth.isInfinite = true ∨ depth.isNan = true →
      drawPixel p r id x y depth = some r) ∧
    (∀ q : ℚ, 0 ≤ q → q ≤ 1 → ∀ cur : ℕ,
      r.depth_buffer.get? (y * r.width + x) = some cur →
      y * r.width + x < r.id_buffer.length →
      drawPixel p r id x y (F.fin q) =
        some (if p.from_f32 (F.fin q) < cur then
          { r with
              depth_buffer :=
                r.depth_buffer.set (y * r.width + x) (p.from_f32 (F.fin q)),
              id_buffer := r.id_buffer.set (y * r.width + x) (some id) }
        else r)) ∧
    (∀ (depth : F) (r' : Rasterizer) (v v' : ℕ),
      drawPixel p r id x y depth = some r' →
      r.depth_buffer.get? (y * r.width + x) = some v →
      r'.depth_buffer.get? (y * r.width + x) = some v' →
      v' = v ∨ v' < v) :=
  ⟨fun depth h => drawPixel_invalid p r id x y depth h,
   fun q h0 h1 cur hcur hid => drawPixel_valid p r id x y q h0 h1 cur hcur hid,
   fun depth r' v v' h hv hv' =>
     drawPixel_depth_monotone p r id x y depth r' v v' h hv hv'⟩

/-- C4, witness: on a fresh 1×1 16-bit rasterizer, the out-of-range depth
`2.0` is dropped, and depth `0.5` quantizes to `32767 < 65535` and is
stored together with the id. -/
theorem C4_draw_pixel_spec_witness :
    drawPixel u16P (Rasterizer.new u16P 1 1) 5 0 0 (F.fin 2) =
      some (Rasterizer.new u16P 1 1) ∧
    drawPixel u16P (Rasterizer.new u16P 1 1) 5 0 0 (F.fin (1 / 2)) =
      some ⟨1, 1, [32767], [some 5]⟩ := by
  constructor
  · apply (C4_draw_pixel_spec u16P (Rasterizer.new u16P 1 1) 5 0 0).1 (F.fin 2)
    have h21 : F.fle (F.fin 2) (F.fin 1) = false := by
      rw [Bool.eq_false_iff]
      intro hc
      exact absurd ((fle_fin_iff 2 1).mp hc) (by norm_num)
    exact Or.inl (by rw [h21, Bool.and_false])
  · rw [(C4_draw_pixel_spec u16P (Rasterizer.new u16P 1 1) 5 0 0).2.1 (1 / 2)
      (by norm_num) (by norm_num) 65535 rfl (by decide)]
    have hq : u16P.from_f32 (F.fin (1 / 2)) = 32767 := by
      norm_num [u16P, DepthPrec.from_f32, rustCastToUInt]
      decide
    rw [hq]
    norm_num [Rasterizer.new, u16P]

/-! ## Claim C9 -/

/-- C9: after `clear()` the depth buffer has length zero, so every
subsequent pixel write with a finite depth in `[0,1]` indexes past the end
of the depth buffer and panics; in particular a `rasterize` call that
reaches such a write (here a horizontal line of the 64×64 cleared
rasterizer at depth 0) returns a panic, so `rasterize` is not total on the
post-clear state. -/
theorem C9_rasterize_after_clear_panics :
    ((Rasterizer.new u32P 64 64).clear).depth_buffer.length = 0 ∧
    (∀ (id x y : ℕ) (q : ℚ), 0 ≤ q → q ≤ 1 →
      drawPixel u32P ((Rasterizer.new u32P 64 64).clear) id x y (F.fin q) =
        none) ∧
    rasterize u32P ((Rasterizer.new u32P 64 64).clear) 42
      ⟨0, 0, 0⟩ ⟨1, 0, 0⟩ ⟨2, 0, 0⟩ = none := by
  have hR : ((Rasterizer.new u32P 64 64).clear).depth_buffer = [] := rfl
  have hW : ((Rasterizer.new u32P 64 64).clear).width = 64 := rfl
  have hH : ((Rasterizer.new u32P 64 64).clear).height = 64 := rfl
  refine ⟨rfl, ?_, ?_⟩
  · intro id x y q h0 h1
    exact drawPixel_empty_depth u32P _ id x y q h0 h1 hR
  · norm_num [rasterize, fillTriangle, drawScanline, roundQ, asUsize, hW, hH]
    rw [show List.range' 0 (Int.toNat 2 + 1) = [0, 1, 2] from rfl,
      List.foldlM_cons,
      drawPixel_empty_depth u32P _ 42 0 0 0 le_rfl zero_le_one hR]
    rfl

/-- C9, witness: a concrete pixel write on the cleared rasterizer
panics. -/
theorem C9_rasterize_after_clear_panics_witness :
    (0 : ℚ) ≤ 1 / 2 ∧ (1 / 2 : ℚ) ≤ 1 ∧
    drawPixel u32P ((Rasterizer.new u32P 64 64).clear) 7 3 5
      (F.fin (1 / 2)) = none :=
  ⟨by norm_num, by norm_num,
    C9_rasterize_after_clear_panics.2.1 7 3 5 (1 / 2) (by norm_num)
      (by norm_num)⟩

/-! ## Claim C7 -/

theorem rmax_nan_right (a : F) : F.rmax a .nan = a := by cases a <;> rfl

theorem rmin_nan_right (a : F) : F.rmin a .nan = a := by cases a <;> rfl

theorem rmax_fin_ninf (c : ℚ) : F.rmax (F.fin c) .ninf = F.fin c := rfl

theorem rmin_fin_inf (c : ℚ) : F.rmin (F.fin c) .inf = F.fin c := rfl

theorem flt_fin_fin_false {a b : ℚ} (h : ¬a < b) :
    F.flt (F.fin a) (F.fin b) = false := by
  rw [Bool.eq_false_iff]
  intro hc
  exact h ((flt_fin_iff a b).mp hc)

theorem aabbRayAux_inside_zero (b : AABB) (r : Ray) (ks : List (Fin 3))
    (h : ∀ k ∈ ks,
      (b.min.nth k ≤ r.pos.nth k ∧ r.pos.nth k ≤ b.max.nth k) ∧
        axisBenign b r k) :
    ∀ c : ℚ, 0 ≤ c →
      aabbRayAux b r ks (F.fin 0) (F.fin c) = some (F.fin 0) := by
  induction ks with
  | nil => intro c _; rfl
  | cons k ks ih =>
    intro c hc
    obtain ⟨⟨hmin, hmax⟩, hax⟩ := h k (List.mem_cons_self k ks)
    have hrest := fun k' hk' => h k' (List.mem_cons_of_mem k hk')
    have hguard : ¬(r.dir.nth k = 0 ∧
        (r.pos.nth k < b.min.nth k ∨ b.max.nth k < r.pos.nth k)) := by
      rintro ⟨-, hor | hor⟩
      · exact absurd hmin (not_le.mpr hor)
      · exact absurd hmax (not_le.mpr hor)
    by_cases hd : r.dir.nth k = 0
    case neg =>
      -- nonzero direction component: t0, t1 finite with opposite signs
      have e0 : fdiv (b.min.nth k - r.pos.nth k) (r.dir.nth k) =
          .fin ((b.min.nth k - r.pos.nth k) / r.dir.nth k) := by
        simp [fdiv, hd]
      have e1 : fdiv (b.max.nth k - r.pos.nth k) (r.dir.nth k) =
          .fin ((b.max.nth k - r.pos.nth k) / r.dir.nth k) := by
        simp [fdiv, hd]
      set a0 := (b.min.nth k - r.pos.nth k) / r.dir.nth k with ha0
      set a1 := (b.max.nth k - r.pos.nth k) / r.dir.nth k with ha1
      have hsigns : min a0 a1 ≤ 0 ∧ 0 ≤ max a0 a1 := by
        rcases lt_or_gt_of_ne hd with hneg | hpos
        · constructor
          · refine min_le_of_right_le ?_
            rw [ha1]
            exact div_nonpos_iff.mpr (Or.inl ⟨sub_nonneg.mpr hmax, hneg.le⟩)
          · refine le_max_of_le_left ?_
            rw [ha0]
            exact div_nonneg_of_nonpos (sub_nonpos.mpr hmin) hneg.le
        · constructor
          · refine min_le_of_left_le ?_
            rw [ha0]
            exact div_nonpos_iff.mpr (Or.inr ⟨sub_nonpos.mpr hmin, hpos.le⟩)
          · refine le_max_of_le_right ?_
            rw [ha1]
            exact div_nonneg (sub_nonneg.mpr hmax) hpos.le
      have hflt : F.flt (F.fin (min c (max a0 a1))) (F.fin (max 0 (min a0 a1)))
          = false := by
        apply flt_fin_fin_false
        rw [max_eq_left hsigns.1]
        exact not_lt.mpr (le_min hc hsigns.2)
      simp only [aabbRayAux, if_neg hguard, e0, e1, rmin_fin_fin, rmax_fin_fin,
        hflt, Bool.false_eq_true, if_false]
      rw [max_eq_left hsigns.1]
      exact ih hrest (min c (max a0 a1)) (le_min hc hsigns.2)
    case pos =>
      have hflt : F.flt (F.fin c) (F.fin 0) = false :=
        flt_fin_fin_false (not_lt.mpr hc)
      rcases hax with hd' | ⟨hs1, hs2⟩ | ⟨he1, he2⟩
      · exact absurd hd hd'
      · -- zero direction, origin strictly inside the slab: t0 = -∞, t1 = +∞
        have h0lt : b.min.nth k - r.pos.nth k < 0 := sub_neg.mpr hs1
        have h1gt : 0 < b.max.nth k - r.pos.nth k := sub_pos.mpr hs2
        have e0 : fdiv (b.min.nth k - r.pos.nth k) (r.dir.nth k) = .ninf := by
          rw [hd]
          simp [fdiv, h0lt.ne, not_lt.mpr h0lt.le]
        have e1 : fdiv (b.max.nth k - r.pos.nth k) (r.dir.nth k) = .inf := by
          rw [hd]
          simp [fdiv, h1gt.ne', h1gt]
        simp only [aabbRayAux, if_neg hguard, e0, e1,
          show F.rmin .ninf .inf = .ninf from rfl,
          show F.rmax .ninf .inf = .inf from rfl,
          rmax_fin_ninf, rmin_fin_inf, hflt, Bool.false_eq_true, if_false]
        exact ih hrest c hc
      · -- degenerate slab: t0 = t1 = NaN, both updates are ignored
        have e0 : fdiv (b.min.nth k - r.pos.nth k) (r.dir.nth k) = .nan := by
          rw [hd, ← he1, sub_self]
          simp [fdiv]
        have e1 : fdiv (b.max.nth k - r.pos.nth k) (r.dir.nth k) = .nan := by
          rw [hd, ← he2, sub_self]
          simp [fdiv]
        simp only [aabbRayAux, if_neg hguard, e0, e1,
          show F.rmin F.nan F.nan = F.nan from rfl,
          show F.rmax F.nan F.nan = F.nan from rfl,
          rmax_nan_right, rmin_nan_right, hflt, Bool.false_eq_true, if_false]
        exact ih hrest c hc

/-- C7 counterexample: the claim says every ray with origin inside the box
gets a hit with parameter 0.  For the unit cube and the unit ray with
origin `(0, 1/2, 1/2)` on the `x = min` face and direction `(0, 1, 0)`,
axis 0 computes `t0 = 0/0 = NaN` and `t1 = 1/0 = +∞`; Rust's NaN-ignoring
`min`/`max` then drive `t_min` to `+∞ > t_max`, so `aabb_ray` returns a
miss (`None`) although the origin is inside the box. -/
theorem C7_aabb_ray_inside_counterexample :
    AABB.contains_point ⟨⟨0, 0, 0⟩, ⟨1, 1, 1⟩⟩ ⟨0, 1 / 2, 1 / 2⟩ = true ∧
    aabb_ray ⟨⟨0, 0, 0⟩, ⟨1, 1, 1⟩⟩ ⟨⟨0, 1 / 2, 1 / 2⟩, ⟨0, 1, 0⟩⟩ none =
      none := by
  constructor
  · norm_num [AABB.contains_point]
  · norm_num [aabb_ray, aabbRayAux, V3.nth, fdiv, F.rmin, F.rmax, F.flt,
      F.cmp?, qcmp, f32MAXQ]

/-- C7 amended: for a ray whose origin lies inside the box (componentwise
`min ≤ pos ≤ max`) and a `max_f` that is absent or non-negative,
`aabb_ray` returns `Some 0` provided additionally that every axis with a
zero direction component has its origin strictly inside the slab or a
degenerate slab `min = pos = max` — on an axis with `dir = 0` and the
origin exactly on one face of a non-degenerate slab, the `0/0 = NaN`
intermediate makes the test miss (see the counterexample). -/
theorem C7_aabb_ray_inside_amended (b : AABB) (r : Ray) (max_f : Option ℚ)
    (hin : ∀ k : Fin 3, b.min.nth k ≤ r.pos.nth k ∧ r.pos.nth k ≤ b.max.nth k)
    (hmax : ∀ m, max_f = some m → 0 ≤ m)
    (hax : ∀ k : Fin 3, axisBenign b r k) :
    aabb_ray b r max_f = some (F.fin 0) := by
  have hc : 0 ≤ max_f.getD f32MAXQ := by
    cases hm : max_f with
    | none => norm_num [Option.getD, f32MAXQ]
    | some m => simpa using hmax m hm
  exact aabbRayAux_inside_zero b r [0, 1, 2]
    (fun k _ => ⟨hin k, hax k⟩) (max_f.getD f32MAXQ) hc

/-- C7 amended, witness: unit cube, origin at the center, direction
`(1, 0, 0)`, no `max_f` bound. -/
theorem C7_aabb_ray_inside_amended_witness :
    aabb_ray ⟨⟨0, 0, 0⟩, ⟨1, 1, 1⟩⟩ ⟨⟨1 / 2, 1 / 2, 1 / 2⟩, ⟨1, 0, 0⟩⟩ none =
      some (F.fin 0) := by
  apply C7_aabb_ray_inside_amended
  · intro k
    fin_cases k <;> constructor <;> norm_num [V3.nth]
  · intro m hm
    cases hm
  · intro k
    fin_cases k
    · exact Or.inl (by norm_num [V3.nth])
    · exact Or.inr (Or.inl (by norm_num [V3.nth]))
    · exact Or.inr (Or.inl (by norm_num [V3.nth]))

/-! ## Claim C3 -/

theorem readU32_u32leBytes (v : ℕ) (hv : v < 2 ^ 32) (rest : List ℕ) :
    readU32 (u32leBytes v ++ rest) = some (v, rest) := by
  simp only [u32leBytes, List.cons_append, List.nil_append, readU32,
    Option.some.injEq, Prod.mk.injEq]
  exact ⟨by omega, trivial⟩

theorem readIds_roundtrip (l : List (Option ℕ)) (rest : List ℕ)
    (hid : ∀ i ∈ l, i.getD 0 < 2 ^ 32 - 1) :
    readIds l.length
      ((l.map (fun id => match id with
          | some v => u32leBytes v
          | none => u32leBytes (2 ^ 32 - 1))).flatten ++ rest) =
      some (l, rest) := by
  induction l with
  | nil => rfl
  | cons a l ih =>
    have hrest := fun i hi => hid i (List.mem_cons_of_mem a hi)
    cases a with
    | none =>
      simp only [List.length_cons, List.map_cons, List.flatten_cons,
        List.append_assoc, readIds]
      rw [readU32_u32leBytes (2 ^ 32 - 1) (by norm_num)]
      have ih' := ih hrest
      norm_num at ih' ⊢
      simp [ih']
    | some v =>
      have hv : v < 2 ^ 32 - 1 := by
        simpa using hid (some v) (List.mem_cons_self _ _)
      norm_num at hv
      simp only [List.length_cons, List.map_cons, List.flatten_cons,
        List.append_assoc, readIds]
      rw [readU32_u32leBytes v (by omega)]
      have ih' := ih hrest
      norm_num at ih' ⊢
      have hne : ¬v = 4294967295 := by omega
      simp [ih', hne]

theorem readDepths_roundtrip (l : List ℕ) (rest : List ℕ)
    (hd : ∀ v ∈ l, v < 2 ^ 32) :
    readDepths l.length ((l.map u32leBytes).flatten ++ rest) =
      some (l, rest) := by
  induction l with
  | nil => rfl
  | cons a l ih =>
    have hrest := fun v hv => hd v (List.mem_cons_of_mem a hv)
    simp only [List.length_cons, List.map_cons, List.flatten_cons,
      List.append_assoc, readDepths]
    rw [readU32_u32leBytes a (hd a (List.mem_cons_self _ _))]
    simp [ih hrest]

/-- C3 counterexample: the claim quantifies over frames with arbitrary id
buffer contents.  A frame whose id buffer holds `Some(u32::MAX)` is
serialized as the `None` sentinel `0xFFFFFFFF` and deserializes to a frame
whose pixel is empty, so the round-trip is not the identity on such
frames. -/
theorem C3_frame_roundtrip_counterexample :
    Frame.read_binary
        (Frame.write_binary ⟨1, 1, [some (2 ^ 32 - 1)], none⟩) =
      some ⟨1, 1, [none], none⟩ ∧
    (⟨1, 1, [none], none⟩ : Frame) ≠ ⟨1, 1, [some (2 ^ 32 - 1)], none⟩ := by
  constructor
  · decide
  · decide

/-- C3 amended: the round-trip `read_binary (write_binary f) = f` holds for
every frame whose width and height fit in `u32`, whose id buffer has
`width·height` entries all below `u32::MAX` (the `None` sentinel), and
whose optional depth buffer has `width·height` 32-bit entries (depths are
carried by their f32 bit patterns, so this is no restriction on the
values). -/
theorem C3_frame_roundtrip_amended (f : Frame)
    (hw : f.width < 2 ^ 32) (hh : f.height < 2 ^ 32)
    (hlen : f.id_buffer.length = f.width * f.height)
    (hid : ∀ i ∈ f.id_buffer, i.getD 0 < 2 ^ 32 - 1)
    (hdep : ∀ ds, f.depth_buffer = some ds →
      ds.length = f.width * f.height ∧ ∀ v ∈ ds, v < 2 ^ 32) :
    Frame.read_binary f.write_binary = some f := by
  have hIdsNil : ∀ (l : List (Option ℕ)), (∀ i ∈ l, i.getD 0 < 2 ^ 32 - 1) →
      readIds l.length
        ((l.map (fun id => match id with
            | some v => u32leBytes v
            | none => u32leBytes (2 ^ 32 - 1))).flatten) = some (l, []) := by
    intro l hl
    have := readIds_roundtrip l [] hl
    rwa [List.append_nil] at this
  have hDepNil : ∀ (l : List ℕ), (∀ v ∈ l, v < 2 ^ 32) →
      readDepths l.length ((l.map u32leBytes).flatten) = some (l, []) := by
    intro l hl
    have := readDepths_roundtrip l [] hl
    rwa [List.append_nil] at this
  obtain ⟨w, h, ids, dep⟩ := f
  simp only at hw hh hlen hid hdep
  cases dep with
  | none =>
    simp only [Frame.write_binary, List.append_assoc, List.append_nil,
      Frame.read_binary]
    simp only [readU32_u32leBytes w hw, readU32_u32leBytes h hh,
      readU32_u32leBytes 0 (by norm_num)]
    rw [← hlen]
    have h1 := hIdsNil ids hid
    norm_num at h1 ⊢
    simp [h1]
  | some ds =>
    obtain ⟨hdl, hdv⟩ := hdep ds rfl
    simp only [Frame.write_binary, List.append_assoc, List.append_nil,
      Frame.read_binary]
    simp only [readU32_u32leBytes w hw, readU32_u32leBytes h hh,
      readU32_u32leBytes 1 (by norm_num)]
    rw [← hlen]
    simp only [readIds_roundtrip ids ((ds.map u32leBytes).flatten) hid]
    have hdl2 : ds.length = ids.length := hdl.trans hlen.symm
    have h2 := hDepNil ds hdv
    rw [hdl2] at h2
    simp [h2]

/-- C3 amended, witness: a 2×1 frame with a mixed id buffer and a depth
buffer round-trips. -/
theorem C3_frame_roundtrip_amended_witness :
    Frame.read_binary
        (Frame.write_binary ⟨2, 1, [some 3, none], some [5, 7]⟩) =
      some ⟨2, 1, [some 3, none], some [5, 7]⟩ :=
  C3_frame_roundtrip_amended ⟨2, 1, [some 3, none], some [5, 7]⟩
    (by norm_num) (by norm_num) (by decide) (by decide)
    (fun ds hds => by
      cases hds
      exact ⟨by decide, by decide⟩)

/-! ## Sorting lemmas for the visibility comparator -/

theorem insertM_fin_eq (a : ℕ × F) (l : List (ℕ × F))
    (ha : ∃ q, a.2 = F.fin q) (hl : ∀ p ∈ l, ∃ q, p.2 = F.fin q) :
    insertM visCmp a l = some (l.orderedInsert visLE a) := by
  induction l with
  | nil => rfl
  | cons b bs ih =>
    obtain ⟨qa, hqa⟩ := ha
    obtain ⟨qb, hqb⟩ := hl b (List.mem_cons_self _ _)
    have hbs := fun p hp => hl p (List.mem_cons_of_mem _ hp)
    have hvis : visLE a b ↔ qb ≤ qa := by
      rw [visLE, hqa, hqb]
      rfl
    simp only [insertM, visCmp, hqa, hqb, F.cmp?, List.orderedInsert]
    rcases lt_trichotomy qb qa with hlt | heq | hgt
    · have hq : qcmp qb qa = .lt := by simp [qcmp, hlt]
      rw [hq, if_neg (by decide : ¬(Ordering.lt = Ordering.gt)),
        if_pos (hvis.mpr hlt.le)]
    · have hq : qcmp qb qa = .eq := by simp [qcmp, heq, lt_irrefl]
      rw [hq, if_neg (by decide : ¬(Ordering.eq = Ordering.gt)),
        if_pos (hvis.mpr heq.le)]
    · have hnvis : ¬visLE a b := fun hc => absurd (hvis.mp hc) (not_le.mpr hgt)
      have hq : qcmp qb qa = .gt := by simp [qcmp, lt_asymm hgt, hgt]
      rw [hq, if_pos rfl, ih hbs, if_neg hnvis]
      rfl

theorem sortM_fin_eq (l : List (ℕ × F))
    (hl : ∀ p ∈ l, ∃ q, p.2 = F.fin q) :
    sortM visCmp l = some (l.insertionSort visLE) := by
  induction l with
  | nil => rfl
  | cons a as ih =>
    have has := fun p hp => hl p (List.mem_cons_of_mem _ hp)
    have hsorted : ∀ p ∈ as.insertionSort visLE, ∃ q, p.2 = F.fin q :=
      fun p hp => has p ((List.mem_insertionSort visLE).mp hp)
    simp only [sortM, ih has]
    rw [insertM_fin_eq a _ (hl a (List.mem_cons_self _ _)) hsorted]
    rfl

theorem sortM_short (cmp : α → α → Option Ordering) (l : List α)
    (h : l.length ≤ 1) : ∃ out, sortM cmp l = some out := by
  match l with
  | [] => exact ⟨[], rfl⟩
  | [a] => exact ⟨[a], rfl⟩
  | a :: b :: l => simp at h

theorem sortM_cons (cmp : α → α → Option Ordering) (a : α) (l : List α) :
    sortM cmp (a :: l) =
      match sortM cmp l with
      | none => none
      | some r => insertM cmp a r := rfl

theorem sortM_all_nan (l : List (ℕ × F)) (h : ∀ p ∈ l, p.2 = F.nan)
    (h2 : 2 ≤ l.length) : sortM visCmp l = none := by
  induction l with
  | nil => simp at h2
  | cons a as ih =>
    cases as with
    | nil => simp at h2
    | cons b bs =>
      cases bs with
      | nil =>
        have hb := h b (by simp)
        have ha := h a (by simp)
        simp [sortM, insertM, visCmp, hb, ha, F.cmp?]
      | cons c cs =>
        have hnone : sortM visCmp (b :: c :: cs) = none :=
          ih (fun p hp => h p (List.mem_cons_of_mem _ hp)) (by simp)
        rw [sortM_cons, hnone]

/-! ## Histogram lemmas -/

theorem sum_set_incr (l : List ℕ) (j : ℕ) (hj : j < l.length) :
    (l.set j (l.getD j 0 + 1)).sum = l.sum + 1 := by
  induction l generalizing j with
  | nil => simp at hj
  | cons a l ih =>
    cases j with
    | zero =>
      rw [List.getD_cons_zero,
        show (a :: l).set 0 (a + 1) = (a + 1) :: l from rfl,
        List.sum_cons, List.sum_cons]
      omega
    | succ j =>
      have hj' : j < l.length := by simpa using hj
      rw [List.getD_cons_succ,
        show (a :: l).set (j + 1) (l.getD j 0 + 1) =
          a :: l.set j (l.getD j 0 + 1) from rfl,
        List.sum_cons, List.sum_cons, ih j hj']
      omega

theorem histogram_spec (buf : List (Option ℕ)) :
    ∀ init : List ℕ, (∀ v, some v ∈ buf → v < init.length) →
    ∃ h, buf.foldlM histStep init = some h ∧ h.length = init.length ∧
      (∀ i, h.getD i 0 = init.getD i 0 +
        buf.countP (fun s => s = some i)) ∧
      h.sum = init.sum + buf.countP (fun s => s.isSome) := by
  induction buf with
  | nil =>
    intro init _
    exact ⟨init, rfl, rfl, by simp, by simp⟩
  | cons a buf ih =>
    intro init hvalid
    cases a with
    | none =>
      obtain ⟨h, h1, h2, h3, h4⟩ :=
        ih init (fun v hv => hvalid v (List.mem_cons_of_mem _ hv))
      refine ⟨h, ?_, h2, ?_, ?_⟩
      · simpa [List.foldlM_cons, histStep] using h1
      · intro i
        rw [h3 i, List.countP_cons]
        simp
      · rw [h4, List.countP_cons]
        simp
    | some id =>
      have hid : id < init.length :=
        hvalid id (List.mem_cons_self _ _)
      obtain ⟨h, h1, h2, h3, h4⟩ :=
        ih (init.set id (init.getD id 0 + 1))
          (fun v hv => by
            rw [List.length_set]
            exact hvalid v (List.mem_cons_of_mem _ hv))
      refine ⟨h, ?_, by rwa [List.length_set] at h2, ?_, ?_⟩
      · simpa [List.foldlM_cons, histStep, hid] using h1
      · intro i
        rw [h3 i, List.countP_cons]
        by_cases hi : i = id
        · subst hi
          rw [List.getD_eq_getD_get? (init.set i (init.getD i 0 + 1)) 0 i,
            List.get?_set_eq_of_lt _ hid, Option.getD_some]
          simp
          omega
        · rw [List.getD_eq_getD_get? (init.set id (init.getD id 0 + 1)) 0 i,
            List.get?_set_ne _ _ (fun hc => hi hc.symm),
            ← List.getD_eq_getD_get? init 0 i]
          simp [Ne.symm hi]
      · rw [h4, sum_set_incr init id hid, List.countP_cons]
        simp
        omega

theorem sum_map_div_nat (l : List ℕ) (N : ℚ) :
    (l.map (fun c : ℕ => (c : ℚ) / N)).sum = (l.sum : ℚ) / N := by
  induction l with
  | nil => simp
  | cons a t ih =>
    simp only [List.map_cons, List.sum_cons, ih]
    push_cast
    ring

theorem getD_replicate_zero (n i : ℕ) :
    (List.replicate n (0 : ℕ)).getD i 0 = 0 := by
  induction n generalizing i with
  | zero => simp [List.getD]
  | succ n ih =>
    cases i with
    | zero => simp [List.replicate_succ, List.getD_cons_zero]
    | succ i => simp [List.replicate_succ, List.getD_cons_succ, ih]

/-- The histogram loop on an all-empty id buffer leaves the histogram
untouched. -/
theorem histogram_all_none (L : ℕ) (init : List ℕ) :
    (List.replicate L (none : Option ℕ)).foldlM histStep init = some init := by
  induction L with
  | zero => rfl
  | succ L ih => simpa [List.replicate_succ, List.foldlM_cons, histStep] using ih

/-- The aggregation panics on an empty pixel buffer with at least two
objects: every coverage is `0/0 = NaN` and the first comparator call
unwraps `None`. -/
theorem cvfib_empty_buffer (n : ℕ) (hn : 2 ≤ n) :
    computeVisibilityFromIdBuffer [] n = none := by
  simp only [computeVisibilityFromIdBuffer, List.foldlM_nil]
  apply sortM_all_nan
  · intro p hp
    obtain ⟨ic, hic, rfl⟩ := List.mem_map.mp hp
    have hsnd : ic.2 ∈ List.replicate n (0 : ℕ) := by
      have := List.mem_map_of_mem Prod.snd hic
      rwa [List.enum_map_snd] at this
    rw [List.eq_of_mem_replicate hsnd]
    simp [fdiv]
  · simpa using hn

/-! ## Claim C10 -/

/-- C10 counterexample: the claim says the aggregation is not total (the
sort comparator panics) for a zero-pixel buffer over any non-empty scene.
With exactly one object, the singleton visibility list is never compared,
so no panic occurs: the call returns normally, carrying the single NaN
coverage. -/
theorem C10_single_object_no_panic_counterexample :
    computeVisibilityFromIdBuffer [] 1 = some [(0, F.nan)] := by
  simp only [computeVisibilityFromIdBuffer, List.foldlM_nil]
  rw [show (List.replicate 1 (0 : ℕ)).enum = [(0, 0)] from rfl]
  simp [sortM, insertM, fdiv]

/-- C10 amended: on a zero-pixel buffer every computed coverage is
`0/0 = NaN`; for `numObjects ≥ 2` the comparator is invoked on a NaN pair,
its `unwrap` panics and aggregation is not total, while for
`numObjects = 1` the sort never calls the comparator and the call returns
(with a NaN coverage). -/
theorem C10_empty_buffer_panic_amended : ∀ n : ℕ, 2 ≤ n →
    computeVisibilityFromIdBuffer [] n = none :=
  fun n hn => cvfib_empty_buffer n hn

/-- C10 amended, witness at `numObjects = 2`. -/
theorem C10_empty_buffer_panic_amended_witness :
    computeVisibilityFromIdBuffer [] 2 = none :=
  C10_empty_buffer_panic_amended 2 (by norm_num)

/-! ## Claim C2 -/

/-- C2 counterexample: the claim quantifies over every id buffer,
including the empty one.  For the empty buffer and one object the
aggregation returns a single entry with coverage `0/0 = NaN`, which is not
a real number in `[0,1]`. -/
theorem C2_zero_pixel_nan_counterexample :
    computeVisibilityFromIdBuffer [] 1 = some [(0, F.nan)] ∧
    ∀ q : ℚ, F.nan ≠ F.fin q := by
  constructor
  · simp only [computeVisibilityFromIdBuffer, List.foldlM_nil]
    rw [show (List.replicate 1 (0 : ℕ)).enum = [(0, 0)] from rfl]
    simp [sortM, insertM, fdiv]
  · intro q h
    cases h

/-- C2 amended: for a NONEMPTY id buffer of `N` pixels whose non-empty
slots hold ids below `numObjects`, the aggregation succeeds and produces
exactly one entry per object, the entry for object `i` carrying coverage
`(count of pixels with id i) / N`; every coverage lies in `[0,1]`, the
coverages sum to at most 1, and the output is sorted by coverage
descending. -/
theorem C2_visibility_aggregation_amended (buf : List (Option ℕ)) (n : ℕ)
    (hN : 1 ≤ buf.length)
    (hvalid : ∀ v ∈ buf.reduceOption, v < n) :
    ∃ out, computeVisibilityFromIdBuffer buf n = some out ∧
      out.length = n ∧
      (out.map Prod.fst).Perm (List.range n) ∧
      (∀ pr ∈ out, pr.2 = F.fin
        ((buf.countP (fun s => s = some pr.1) : ℚ) / (buf.length : ℚ))) ∧
      (∀ pr ∈ out, ∃ q : ℚ, pr.2 = F.fin q ∧ 0 ≤ q ∧ q ≤ 1) ∧
      (out.map (fun pr => F.toQ pr.2)).sum ≤ 1 ∧
      out.Pairwise (fun a b => F.toQ b.2 ≤ F.toQ a.2) := by
  have hvalid' : ∀ v, some v ∈ buf → v < n :=
    fun v hv => hvalid v (List.reduceOption_mem_iff.mpr hv)
  obtain ⟨h, h1, h2, h3, h4⟩ :=
    histogram_spec buf (List.replicate n 0) (by simpa using hvalid')
  have hlen : h.length = n := by simpa using h2
  have hgetD : ∀ i, h.getD i 0 = buf.countP (fun s => s = some i) := by
    intro i
    rw [h3 i, getD_replicate_zero]
    exact Nat.zero_add _
  have hsum : h.sum = buf.countP (fun s => s.isSome) := by simpa using h4
  have hN0 : ((buf.length : ℚ)) ≠ 0 := Nat.cast_ne_zero.mpr (by omega)
  set vis0 : Visibility :=
    h.enum.map (fun ic => (ic.1, fdiv (ic.2 : ℚ) (buf.length : ℚ))) with hvis0
  have hfin : ∀ p ∈ vis0, ∃ q, p.2 = F.fin q := by
    intro p hp
    obtain ⟨ic, _, rfl⟩ := List.mem_map.mp hp
    exact ⟨(ic.2 : ℚ) / (buf.length : ℚ), by simp [fdiv, hN0]⟩
  have hcv : computeVisibilityFromIdBuffer buf n =
      some (vis0.insertionSort visLE) := by
    simp only [computeVisibilityFromIdBuffer, h1]
    exact sortM_fin_eq vis0 hfin
  have hperm : (vis0.insertionSort visLE).Perm vis0 :=
    List.perm_insertionSort visLE vis0
  have hmem : ∀ p, p ∈ vis0.insertionSort visLE → p ∈ vis0 :=
    fun p hp => (List.mem_insertionSort visLE).mp hp
  have hcover : ∀ pr ∈ vis0.insertionSort visLE, pr.2 = F.fin
      ((buf.countP (fun s => s = some pr.1) : ℚ) / (buf.length : ℚ)) := by
    intro pr hpr
    obtain ⟨ic, hic, rfl⟩ := List.mem_map.mp (hmem pr hpr)
    have hpos : h.get? ic.1 = some ic.2 := by
      have := List.mem_enum_iff_getElem?.mp hic
      rwa [← List.get?_eq_getElem?] at this
    have : h.getD ic.1 0 = ic.2 := by
      rw [List.getD_eq_getD_get? h 0 ic.1, hpos, Option.getD_some]
    rw [← this, hgetD ic.1]
    simp [fdiv, hN0]
  refine ⟨vis0.insertionSort visLE, hcv, ?_, ?_, hcover, ?_, ?_, ?_⟩
  · rw [hperm.length_eq]
    simp [hvis0, hlen]
  · refine (hperm.map Prod.fst).trans ?_
    have : vis0.map Prod.fst = List.range n := by
      rw [hvis0, List.map_map]
      have : (Prod.fst ∘ fun ic : ℕ × ℕ =>
          ((ic.1, fdiv (ic.2 : ℚ) (buf.length : ℚ)) : ℕ × F)) = Prod.fst := by
        funext ic
        rfl
      rw [this, List.enum_map_fst, hlen]
    rw [this]
  · intro pr hpr
    refine ⟨(buf.countP (fun s => s = some pr.1) : ℚ) / (buf.length : ℚ),
      hcover pr hpr, ?_, ?_⟩
    · positivity
    · rw [div_le_one (by positivity)]
      exact_mod_cast List.countP_le_length _
  · have hmapeq : vis0.map (fun pr => F.toQ pr.2) =
        h.map (fun c : ℕ => (c : ℚ) / (buf.length : ℚ)) := by
      rw [hvis0, List.map_map]
      have : ((fun pr : ℕ × F => F.toQ pr.2) ∘ fun ic : ℕ × ℕ =>
          ((ic.1, fdiv (ic.2 : ℚ) (buf.length : ℚ)) : ℕ × F)) =
          ((fun c : ℕ => (c : ℚ) / (buf.length : ℚ)) ∘ Prod.snd) := by
        funext ic
        simp [fdiv, hN0, F.toQ]
      rw [this, ← List.map_map, List.enum_map_snd]
    have hsum2 : ((vis0.insertionSort visLE).map
        (fun pr => F.toQ pr.2)).sum =
        (h.map (fun c : ℕ => (c : ℚ) / (buf.length : ℚ))).sum := by
      rw [(hperm.map (fun pr => F.toQ pr.2)).sum_eq, hmapeq]
    rw [hsum2]
    rw [sum_map_div_nat, div_le_one (by positivity)]
    rw [hsum]
    exact_mod_cast List.countP_le_length _
  · exact List.sorted_insertionSort visLE vis0

/-- C2 amended, witness: four pixels over two objects. -/
theorem C2_visibility_aggregation_amended_witness :
    ∃ out, computeVisibilityFromIdBuffer [some 0, none, some 1, some 0] 2 =
        some out ∧
      out.length = 2 ∧
      (out.map Prod.fst).Perm (List.range 2) ∧
      (∀ pr ∈ out, pr.2 = F.fin
        (([some 0, none, some 1, some 0].countP
            (fun s => s = some pr.1) : ℚ) / 4)) ∧
      (∀ pr ∈ out, ∃ q : ℚ, pr.2 = F.fin q ∧ 0 ≤ q ∧ q ≤ 1) ∧
      (out.map (fun pr => F.toQ pr.2)).sum ≤ 1 ∧
      out.Pairwise (fun a b => F.toQ b.2 ≤ F.toQ a.2) := by
  have := C2_visibility_aggregation_amended [some 0, none, some 1, some 0] 2
    (by norm_num) (by decide)
  simpa using this

/-! ## Claim C5 -/

theorem fdiv_of_ne (a b : ℚ) (hb : b ≠ 0) : fdiv a b = F.fin (a / b) := by
  simp [fdiv, hb]

theorem raycastData_singular (r : NaiveRaycaster) (view proj : M4)
    (hinv : (proj.mul view).tryInverse = none) :
    raycastData r view proj = some (r, TestStats.zero) := by
  simp only [raycastData]
  rw [hinv]

set_option maxHeartbeats 1000000 in
theorem compute_visibility_singular (r : NaiveRaycaster) (view proj : M4)
    (hinv : (proj.mul view).tryInverse = none) :
    r.compute_visibility none view proj =
      match computeVisibilityFromIdBuffer
          (List.replicate r.id_buffer.length none)
          r.scene.objects.length with
      | none => none
      | some vis =>
        some ({ r with id_buffer := List.replicate r.id_buffer.length none },
          none, vis, TestStats.zero) := by
  simp only [NaiveRaycaster.compute_visibility]
  rw [raycastData_singular _ _ _ hinv]

/-- C5 counterexample: the claim says a non-invertible `proj·view` never
propagates as a failure.  For a raycaster with `frame_size = 0` over a
two-object scene, `raycast_data` does return zero stats with an empty
(zero-length) id buffer, but the subsequent visibility aggregation
computes two `0/0 = NaN` coverages and the sort comparator's `unwrap`
panics, so the call does not return normally. -/
theorem C5_noninvertible_zero_frame_counterexample :
    ((⟨1, 0, 0, 0, 0, 1, 0, 0, 0, 0, 1, 0, 0, 0, 0, 1⟩ : M4).mul
      (⟨0, 0, 0, 0, 0, 0, 0, 0, 0, 0, 0, 0, 0, 0, 0, 0⟩ : M4)).det = 0 ∧
    NaiveRaycaster.compute_visibility
      ⟨⟨[], [⟨0, ⟨1, 0, 0, 0, 0, 1, 0, 0, 0, 0, 1, 0⟩⟩,
            ⟨0, ⟨1, 0, 0, 0, 0, 1, 0, 0, 0, 0, 1, 0⟩⟩]⟩, [], 0, []⟩
      none
      (⟨0, 0, 0, 0, 0, 0, 0, 0, 0, 0, 0, 0, 0, 0, 0, 0⟩ : M4)
      (⟨1, 0, 0, 0, 0, 1, 0, 0, 0, 0, 1, 0, 0, 0, 0, 1⟩ : M4) = none := by
  have hdet : ((⟨1, 0, 0, 0, 0, 1, 0, 0, 0, 0, 1, 0, 0, 0, 0, 1⟩ : M4).mul
      (⟨0, 0, 0, 0, 0, 0, 0, 0, 0, 0, 0, 0, 0, 0, 0, 0⟩ : M4)).det = 0 := by
    simp [M4.mul, M4.det, det3]
  refine ⟨hdet, ?_⟩
  have hinv : ((⟨1, 0, 0, 0, 0, 1, 0, 0, 0, 0, 1, 0, 0, 0, 0, 1⟩ : M4).mul
      (⟨0, 0, 0, 0, 0, 0, 0, 0, 0, 0, 0, 0, 0, 0, 0, 0⟩ : M4)).tryInverse =
      none := by
    simp [M4.tryInverse, hdet]
  rw [compute_visibility_singular _ _ _ hinv]
  have h2 : computeVisibilityFromIdBuffer [] 2 = none :=
    cvfib_empty_buffer 2 (by norm_num)
  simp [h2]

/-- C5 amended: on a non-invertible `proj·view` with a well-formed id
buffer, the naive raycaster returns normally with all-zero `TestStats` and
an all-empty id buffer — provided the frame has at least one pixel or the
scene has at most one object (otherwise the aggregation itself panics on
NaN coverages, see the counterexample). -/
theorem C5_noninvertible_matrix_amended (r : NaiveRaycaster)
    (view proj : M4)
    (hdet : (proj.mul view).det = 0)
    (hlen : r.id_buffer.length = r.frame_size * r.frame_size)
    (hok : 1 ≤ r.frame_size ∨ r.scene.objects.length ≤ 1) :
    ∃ vis, r.compute_visibility none view proj =
      some ({ r with id_buffer := List.replicate r.id_buffer.length none },
        none, vis, TestStats.zero) := by
  have hinv : (proj.mul view).tryInverse = none := by
    simp [M4.tryInverse, hdet]
  have hvis : ∃ vis, computeVisibilityFromIdBuffer
      (List.replicate r.id_buffer.length none)
      r.scene.objects.length = some vis := by
    rcases hok with hfs | hobj
    · have hL : 1 ≤ r.id_buffer.length := by
        rw [hlen]
        exact Nat.one_le_iff_ne_zero.mpr (by positivity)
      have hN0 : ((List.replicate r.id_buffer.length
          (none : Option ℕ)).length : ℚ) ≠ 0 := by
        rw [List.length_replicate]
        exact Nat.cast_ne_zero.mpr (by omega)
      simp only [computeVisibilityFromIdBuffer,
        histogram_all_none r.id_buffer.length]
      refine ⟨_, sortM_fin_eq _ ?_⟩
      intro p hp
      obtain ⟨ic, _, rfl⟩ := List.mem_map.mp hp
      exact ⟨_, fdiv_of_ne _ _ hN0⟩
    · simp only [computeVisibilityFromIdBuffer,
        histogram_all_none r.id_buffer.length]
      apply sortM_short
      simpa using hobj
  obtain ⟨vis, hv⟩ := hvis
  rw [compute_visibility_singular _ _ _ hinv, hv]
  exact ⟨vis, rfl⟩

/-- C5 amended, witness: a 1×1 raycaster over the empty scene with a zero
view matrix. -/
theorem C5_noninvertible_matrix_amended_witness :
    ∃ vis, NaiveRaycaster.compute_visibility
        ⟨⟨[], []⟩, [], 1, [none]⟩ none
        (⟨0, 0, 0, 0, 0, 0, 0, 0, 0, 0, 0, 0, 0, 0, 0, 0⟩ : M4)
        (⟨1, 0, 0, 0, 0, 1, 0, 0, 0, 0, 1, 0, 0, 0, 0, 1⟩ : M4) =
      some (⟨⟨[], []⟩, [], 1, List.replicate 1 none⟩, none, vis,
        TestStats.zero) :=
  C5_noninvertible_matrix_amended ⟨⟨[], []⟩, [], 1, [none]⟩ _ _
    (by simp [M4.mul, M4.det, det3]) (by decide) (Or.inl (by norm_num))

end Occ
